import Mathlib

/-!
Verification of glycerine/latch (latch.go).

A `Latch` wraps a buffered Go channel `ch` of `*Packet` together with the
current value `cur`, the `closed` flag, the fixed capacity `sz`, and the
background-refresher stop channel `fillerStop`.  We embed the sequential
semantics: the channel is a FIFO list (head = next value received), payload
pointers are values of an abstract type `α` (pointer equality is equality
in `α`, the nil pointer is `default`), and the stop channel is in one of
three states (nil, allocated-and-open, closed).
-/

namespace LatchSpec

/-- State of the `fillerStop` channel (`chan struct{}`): `nilCh` models the
nil channel before `BackgroundRefresher` runs, `openedCh` an allocated open
channel, `closedCh` the channel after `close(fillerStop)`. -/
inductive StopCh where
  | nilCh
  | openedCh
  | closedCh
deriving DecidableEq

/-- The `Latch` struct of latch.go.  `ch` is the buffered channel contents,
front of the list = next element a receive would take; `sz` the capacity;
`cur` the current `*Packet` (pointers modelled as values of `α`, the nil
pointer as `default`); `closed` the closed flag; `fillerStop` the stop
channel for the background refresher. -/
structure Latch (α : Type) where
  sz : Nat
  cur : α
  ch : List α
  closed : Bool
  fillerStop : StopCh
deriving DecidableEq

variable {α : Type}

/-- `NewLatch(sz)`: fresh latch, open, empty channel, `cur` is the nil
pointer (zero value), `fillerStop` nil. -/
def NewLatch (α : Type) [Inhabited α] (sz : Nat) : Latch α :=
  { sz := sz, cur := default, ch := [], closed := false, fillerStop := StopCh.nilCh }

/-- The non-blocking take loop inside `drain`: `select { case <-r.ch:
default: return }` repeated until the channel is empty. -/
def drainLoop : List α → List α
  | [] => []
  | _ :: rest => drainLoop rest

/-- `(*Latch).drain`: returns immediately when the channel is empty,
otherwise runs the non-blocking take loop. -/
def Latch.drain (r : Latch α) : Latch α :=
  if r.ch.length = 0 then r else { r with ch := drainLoop r.ch }

/-- The fill loop inside `Close`: `for i := 0; i < r.sz; i++ { r.ch <- r.cur }`,
a channel send appends at the back. -/
def closeFill (cur : α) : Nat → List α → List α
  | 0, ch => ch
  | n + 1, ch => closeFill cur n (ch ++ [cur])

/-- `(*Latch).Close(pak)`: store `pak` in `cur`, drain old values, set the
closed flag, then send `sz` copies of `cur`. -/
def Latch.Close (r : Latch α) (pak : α) : Latch α :=
  let r1 : Latch α := { r with cur := pak }
  let r2 := r1.drain
  let r3 : Latch α := { r2 with closed := true }
  { r3 with ch := closeFill r3.cur r3.sz r3.ch }

/-- The top-up loop inside `Refresh`: `for len(r.ch) < r.sz { r.ch <- r.cur }`. -/
def refreshLoop (cur : α) (sz : Nat) (ch : List α) : List α :=
  if ch.length < sz then refreshLoop cur sz (ch ++ [cur]) else ch
termination_by sz - ch.length
decreasing_by simp; omega

/-- `(*Latch).Refresh`: when closed, top the channel up to capacity;
otherwise do nothing. -/
def Latch.Refresh (r : Latch α) : Latch α :=
  if r.closed then { r with ch := refreshLoop r.cur r.sz r.ch } else r

/-- `(*Latch).Open`: drain the channel and clear the closed flag. -/
def Latch.Open (r : Latch α) : Latch α :=
  let r1 := r.drain
  { r1 with closed := false }

/-- A reader's non-blocking take on `Ch()`: `select { case b := <-r.ch: ...
default: ... }`.  Returns the value taken (or `none` when the channel is
empty) and the resulting latch. -/
def Latch.tryTake (r : Latch α) : Option α × Latch α :=
  match r.ch with
  | [] => (none, r)
  | x :: rest => (some x, { r with ch := rest })

/-- `n` consecutive non-blocking takes; first component is the list of
results in order. -/
def Latch.takeSeq (r : Latch α) : Nat → List (Option α) × Latch α
  | 0 => ([], r)
  | n + 1 =>
    let t := r.tryTake
    let s := t.2.takeSeq n
    (t.1 :: s.1, s.2)

/-- `(*Latch).BackgroundRefresher`: under the lock, if `fillerStop` is nil,
allocate it and spawn the refresher goroutine.  The boolean records whether
a new goroutine was started by this call. -/
def Latch.BackgroundRefresher (r : Latch α) : Latch α × Bool :=
  match r.fillerStop with
  | StopCh.nilCh => ({ r with fillerStop := StopCh.openedCh }, true)
  | _ => (r, false)

/-- `(*Latch).Stop`: under the lock, if `fillerStop` is non-nil, close it
unless it is already closed (the `select` receives from a closed channel
instead of closing twice).  The boolean records whether `close(fillerStop)`
was executed by this call.  Note `fillerStop` is never reset to nil. -/
def Latch.Stop (r : Latch α) : Latch α × Bool :=
  match r.fillerStop with
  | StopCh.nilCh => (r, false)
  | StopCh.openedCh => ({ r with fillerStop := StopCh.closedCh }, true)
  | StopCh.closedCh => (r, false)

/-- What one iteration of the refresher goroutine's `select` does. -/
inductive RefresherStep where
  | terminated
  | refreshedTick
deriving DecidableEq

/-- One iteration of the background refresher goroutine: if the stop
channel is closed, the `case <-r.fillerStop` branch fires and the goroutine
returns; otherwise the 500ms timer eventually fires and it calls `Refresh`. -/
def Latch.refresherStep (r : Latch α) : RefresherStep × Latch α :=
  match r.fillerStop with
  | StopCh.closedCh => (RefresherStep.terminated, r)
  | _ => (RefresherStep.refreshedTick, r.Refresh)

/-- Writer-side operations for sequential execution traces. -/
inductive Op (α : Type) where
  | close (p : α)
  | refresh
  | reset

/-- Apply one writer-side operation. -/
def Latch.applyOp (r : Latch α) : Op α → Latch α
  | Op.close p => r.Close p
  | Op.refresh => r.Refresh
  | Op.reset => r.Open

/-- Run a sequence of writer-side operations. -/
def Latch.run (r : Latch α) (ops : List (Op α)) : Latch α :=
  ops.foldl Latch.applyOp r

/-- The sequential state invariant: closed implies the channel holds exactly
`sz` elements, open implies it is empty, and all channel contents equal the
current value. -/
def Inv (r : Latch α) : Prop :=
  (r.closed = true → r.ch.length = r.sz) ∧
  (r.closed = false → r.ch.length = 0) ∧
  (∀ x ∈ r.ch, x = r.cur)

/-- Reader-side operations that may follow a `Close`: non-blocking takes
and `Refresh` calls. -/
inductive ReadOp where
  | take
  | refresh

/-- Run reader-side operations, collecting each take's result. -/
def Latch.runReads (r : Latch α) : List ReadOp → Latch α × List (Option α)
  | [] => (r, [])
  | ReadOp.take :: rest =>
    let t := r.tryTake
    let s := t.2.runReads rest
    (s.1, t.1 :: s.2)
  | ReadOp.refresh :: rest => (r.Refresh).runReads rest

/-- After `Close(p)`: the current pointer is `p` and every queued pointer
is `p` itself (pointer aliasing, no structural copies are ever made). -/
def AliasInv (p : α) (r : Latch α) : Prop :=
  r.cur = p ∧ ∀ y ∈ r.ch, y = p

/-- One depletion-and-restock round: `n` non-blocking takes followed by a
`Refresh` call. -/
def refreshRound (n : Nat) (r : Latch α) : Latch α :=
  ((r.takeSeq n).2).Refresh

/-- Channel send with the blocking precondition made explicit: succeeds
exactly when the buffered channel has room. -/
def chSend (sz : Nat) (ch : List α) (x : α) : Option (List α) :=
  if ch.length < sz then some (ch ++ [x]) else none

/-- `Close`'s fill loop with each send checked for room: `none` would mean
a send blocked forever (no readers in the sequential model). -/
def closeFillChecked (cur : α) (sz : Nat) : Nat → List α → Option (List α)
  | 0, ch => some ch
  | n + 1, ch =>
    match chSend sz ch cur with
    | some ch2 => closeFillChecked cur sz n ch2
    | none => none

/-- The drain loop with explicit fuel: `none` means the loop had not
terminated within the given number of iterations. -/
def drainFuel : Nat → List α → Option (List α)
  | _, [] => some []
  | 0, _ :: _ => none
  | f + 1, _ :: rest => drainFuel f rest

/-- The refresh loop with explicit fuel: `none` means the loop had not
terminated within the given number of iterations. -/
def refreshFuel (cur : α) (sz : Nat) : Nat → List α → Option (List α)
  | 0, ch => if ch.length < sz then none else some ch
  | f + 1, ch => if ch.length < sz then refreshFuel cur sz f (ch ++ [cur]) else some ch

theorem drainLoop_eq_nil : ∀ ch : List α, drainLoop ch = [] := by
  intro ch
  induction ch with
  | nil => rfl
  | cons x rest ih => simpa [drainLoop] using ih

theorem drain_eq (r : Latch α) : r.drain = { r with ch := ([] : List α) } := by
  unfold Latch.drain
  split
  case isTrue h =>
    obtain ⟨sz, cur, ch, closed, fs⟩ := r
    simp only [List.length_eq_zero] at h
    subst h
    rfl
  case isFalse h =>
    rw [drainLoop_eq_nil]

theorem closeFill_eq (c : α) : ∀ (n : Nat) (ch : List α),
    closeFill c n ch = ch ++ List.replicate n c := by
  intro n
  induction n with
  | zero => intro ch; simp [closeFill]
  | succ n ih =>
    intro ch
    rw [closeFill, ih, List.replicate_succ]
    simp

theorem close_def (r : Latch α) (p : α) :
    r.Close p = { sz := r.sz, cur := p, ch := List.replicate r.sz p, closed := true,
                  fillerStop := r.fillerStop } := by
  unfold Latch.Close
  simp only [drain_eq, closeFill_eq]
  simp

theorem open_def (r : Latch α) :
    r.Open = { r with ch := ([] : List α), closed := false } := by
  unfold Latch.Open
  rw [drain_eq]

theorem refreshLoop_eq_aux (c : α) (sz : Nat) :
    ∀ (k : Nat) (ch : List α), sz - ch.length = k →
      refreshLoop c sz ch = ch ++ List.replicate k c := by
  intro k
  induction k with
  | zero =>
    intro ch h
    have hge : ¬ ch.length < sz := by omega
    rw [refreshLoop]
    simp [hge]
  | succ k ih =>
    intro ch h
    have hlt : ch.length < sz := by omega
    rw [refreshLoop]
    simp only [hlt, if_true]
    rw [ih (ch ++ [c]) (by simp; omega)]
    simp [List.replicate_succ]

theorem refreshLoop_eq (c : α) (sz : Nat) (ch : List α) :
    refreshLoop c sz ch = ch ++ List.replicate (sz - ch.length) c :=
  refreshLoop_eq_aux c sz (sz - ch.length) ch rfl

theorem takeSeq_append : ∀ (l rest : List α) (r : Latch α), r.ch = l ++ rest →
    (r.takeSeq l.length).1 = l.map some ∧ (r.takeSeq l.length).2 = { r with ch := rest } := by
  intro l
  induction l with
  | nil =>
    intro rest r h
    simp only [List.nil_append] at h
    refine ⟨rfl, ?_⟩
    show r = { r with ch := rest }
    rw [← h]
  | cons x l ih =>
    intro rest r h
    have h1 : r.tryTake = (some x, { r with ch := l ++ rest }) := by
      unfold Latch.tryTake
      rw [h]
      rfl
    have h2 := ih rest { r with ch := l ++ rest } rfl
    simp only [List.length_cons, Latch.takeSeq, h1, List.map_cons]
    exact ⟨by rw [h2.1], by rw [h2.2]⟩

theorem inv_new (α : Type) [Inhabited α] (sz : Nat) : Inv (NewLatch α sz) := by
  refine ⟨?_, ?_, ?_⟩ <;> simp [NewLatch, Inv]

theorem inv_close (r : Latch α) (p : α) : Inv (r.Close p) := by
  rw [close_def]
  refine ⟨fun _ => by simp, fun hc => by simp at hc, fun x hx => List.eq_of_mem_replicate hx⟩

theorem inv_open (r : Latch α) : Inv r.Open := by
  rw [open_def]
  refine ⟨?_, ?_, ?_⟩ <;> simp

theorem inv_refresh (r : Latch α) (hr : Inv r) : Inv r.Refresh := by
  unfold Latch.Refresh
  split
  case isTrue hc =>
    refine ⟨?_, ?_, ?_⟩
    · intro _
      simp [refreshLoop_eq, hr.1 hc]
    · intro hfc
      simp only at hfc
      rw [hc] at hfc
      cases hfc
    · intro x hx
      simp only [refreshLoop_eq, List.mem_append] at hx
      rcases hx with h | h
      · exact hr.2.2 x h
      · exact List.eq_of_mem_replicate h
  case isFalse hc => exact hr

theorem inv_applyOp (r : Latch α) (op : Op α) (hr : Inv r) : Inv (r.applyOp op) := by
  cases op with
  | close p => exact inv_close r p
  | refresh => exact inv_refresh r hr
  | reset => exact inv_open r

theorem inv_run (ops : List (Op α)) : ∀ (r : Latch α), Inv r → Inv (r.run ops) := by
  induction ops with
  | nil =>
    intro r hr
    exact hr
  | cons op rest ih =>
    intro r hr
    show Inv ((r.applyOp op).run rest)
    exact ih _ (inv_applyOp r op hr)

theorem alias_tryTake (p : α) (r : Latch α) (hr : AliasInv p r) :
    AliasInv p r.tryTake.2 ∧ ∀ x, r.tryTake.1 = some x → x = p := by
  rcases hch : r.ch with _ | ⟨y, rest⟩
  · have ht : r.tryTake = (none, r) := by
      unfold Latch.tryTake
      rw [hch]
    rw [ht]
    refine ⟨hr, ?_⟩
    intro x hx
    simp at hx
  · have ht : r.tryTake = (some y, { r with ch := rest }) := by
      unfold Latch.tryTake
      rw [hch]
    rw [ht]
    have hy : y = p := hr.2 y (by rw [hch]; exact List.mem_cons_self y rest)
    refine ⟨⟨hr.1, ?_⟩, ?_⟩
    · intro z hz
      exact hr.2 z (by rw [hch]; exact List.mem_cons_of_mem y hz)
    · intro x hx
      simp only [Option.some.injEq] at hx
      rw [← hx]
      exact hy

theorem alias_refresh (p : α) (r : Latch α) (hr : AliasInv p r) : AliasInv p r.Refresh := by
  unfold Latch.Refresh
  split
  case isTrue hc =>
    refine ⟨hr.1, ?_⟩
    intro y hy
    simp only [refreshLoop_eq, List.mem_append] at hy
    rcases hy with h | h
    · exact hr.2 y h
    · rw [List.eq_of_mem_replicate h]
      exact hr.1
  case isFalse hc => exact hr

theorem alias_runReads (p : α) : ∀ (ops : List ReadOp) (r : Latch α), AliasInv p r →
    AliasInv p (r.runReads ops).1 ∧ ∀ o ∈ (r.runReads ops).2, ∀ x, o = some x → x = p := by
  intro ops
  induction ops with
  | nil =>
    intro r hr
    refine ⟨hr, ?_⟩
    intro o ho
    simp [Latch.runReads] at ho
  | cons op rest ih =>
    intro r hr
    cases op with
    | take =>
      have h1 := alias_tryTake p r hr
      have h2 := ih r.tryTake.2 h1.1
      refine ⟨h2.1, ?_⟩
      intro o ho x hox
      have ho2 : o = r.tryTake.1 ∨ o ∈ (r.tryTake.2.runReads rest).2 := by
        simpa [Latch.runReads] using ho
      rcases ho2 with h | h
      · exact h1.2 x (by rw [← h]; exact hox)
      · exact h2.2 o h x hox
    | refresh =>
      have h1 := alias_refresh p r hr
      have h2 := ih r.Refresh h1
      refine ⟨h2.1, ?_⟩
      intro o ho x hox
      have ho2 : o ∈ ((r.Refresh).runReads rest).2 := by
        simpa [Latch.runReads] using ho
      exact h2.2 o ho2 x hox

theorem drainFuel_len : ∀ ch : List α, drainFuel ch.length ch = some [] := by
  intro ch
  induction ch with
  | nil => rfl
  | cons x rest ih => simpa [drainFuel] using ih

theorem closeFillChecked_eq :
    ∀ (n : Nat) (ch : List α) (c : α) (sz : Nat), ch.length + n ≤ sz →
      closeFillChecked c sz n ch = some (closeFill c n ch) := by
  intro n
  induction n with
  | zero =>
    intro ch c sz h
    rfl
  | succ n ih =>
    intro ch c sz h
    have hlt : ch.length < sz := by omega
    simp only [closeFillChecked, chSend, hlt, if_true, closeFill]
    exact ih (ch ++ [c]) c sz (by simp; omega)

theorem refreshFuel_eq (c : α) (sz : Nat) : ∀ (k : Nat) (ch : List α), sz - ch.length = k →
    refreshFuel c sz k ch = some (refreshLoop c sz ch) := by
  intro k
  induction k with
  | zero =>
    intro ch h
    have hge : ¬ ch.length < sz := by omega
    rw [refreshLoop]
    simp [refreshFuel, hge]
  | succ k ih =>
    intro ch h
    have hlt : ch.length < sz := by omega
    rw [refreshLoop]
    simp only [refreshFuel, hlt, if_true]
    exact ih (ch ++ [c]) (by simp; omega)

/-- Claim C1: for every capacity `N ≥ 0` and every finite sequence of
`Close`, `Refresh`, `Open` operations run sequentially from a fresh latch,
the state invariant holds: closed implies the queue length equals `N`, open
implies length `0`, and every queued element equals the current value. -/
theorem latch_invariant_holds (α : Type) [Inhabited α] (sz : Nat) (ops : List (Op α)) :
    Inv ((NewLatch α sz).run ops) :=
  inv_run ops (NewLatch α sz) (inv_new α sz)

/-- Claim C2: after `Close(p)` on a latch of capacity `sz ≥ 1`, exactly `sz`
consecutive non-blocking takes each yield `p`, and the next non-blocking
take yields no value. -/
theorem latch_close_exact_takes (r : Latch α) (p : α) (h : 1 ≤ r.sz) :
    ((r.Close p).takeSeq r.sz).1 = List.replicate r.sz (some p) ∧
    (((r.Close p).takeSeq r.sz).2).tryTake.1 = none := by
  have hch : (r.Close p).ch = List.replicate r.sz p ++ [] := by
    rw [close_def]
    simp
  have ht := takeSeq_append (List.replicate r.sz p) [] (r.Close p) hch
  rw [List.length_replicate] at ht
  refine ⟨?_, ?_⟩
  · rw [ht.1, List.map_replicate]
  · rw [ht.2]
    rfl

theorem latch_close_exact_takes_witness :
    (((NewLatch Nat 3).Close 7).takeSeq 3).1 = List.replicate 3 (some 7) ∧
    ((((NewLatch Nat 3).Close 7).takeSeq 3).2).tryTake.1 = none :=
  latch_close_exact_takes (NewLatch Nat 3) 7 (by decide)

/-- Claim C3, counterexample: `Stop` does NOT clear `fillerStop` back to
nil, so a `BackgroundRefresher` call made after `Stop` does not start a new
refresher task (its boolean is `false`), contrary to the claim. -/
theorem latch_stop_clears_handle_counterexample :
    ((((NewLatch Nat 1).BackgroundRefresher).1.Stop).1.BackgroundRefresher).2 = false ∧
    (((NewLatch Nat 1).BackgroundRefresher).1.Stop).1.fillerStop ≠ StopCh.nilCh := by
  decide

/-- Claim C3, amended: `Stop` signals the running refresher task to
terminate (the goroutine observes the closed stop channel and returns at
its next iteration), but it leaves the internal handle non-nil, so a later
`BackgroundRefresher` call after `Stop` does not start a new task. -/
theorem latch_stop_signals_but_no_restart (r : Latch α) (h : r.fillerStop = StopCh.openedCh) :
    ((r.Stop).1.refresherStep).1 = RefresherStep.terminated ∧
    (r.Stop).1.fillerStop = StopCh.closedCh ∧
    ((r.Stop).1.BackgroundRefresher) = ((r.Stop).1, false) := by
  have hs : r.Stop = ({ r with fillerStop := StopCh.closedCh }, true) := by
    unfold Latch.Stop
    rw [h]
  rw [hs]
  exact ⟨rfl, rfl, rfl⟩

theorem latch_stop_signals_but_no_restart_witness :
    ((NewLatch Nat 1).BackgroundRefresher).1.fillerStop = StopCh.openedCh ∧
    (((((NewLatch Nat 1).BackgroundRefresher).1.Stop).1.refresherStep).1 =
        RefresherStep.terminated ∧
      ((((NewLatch Nat 1).BackgroundRefresher).1.Stop).1.fillerStop = StopCh.closedCh) ∧
      ((((NewLatch Nat 1).BackgroundRefresher).1.Stop).1.BackgroundRefresher) =
        ((((NewLatch Nat 1).BackgroundRefresher).1.Stop).1, false)) :=
  ⟨rfl, latch_stop_signals_but_no_restart ((NewLatch Nat 1).BackgroundRefresher).1 rfl⟩

/-- Claim C4: last-writer-wins — `Close(p1)` immediately followed by
`Close(p2)` leaves the latch in exactly the state of `Close(p2)` alone, and
the queue then holds only copies of `p2`, never `p1`. -/
theorem latch_last_writer_wins (r : Latch α) (p1 p2 : α) :
    (r.Close p1).Close p2 = r.Close p2 ∧
    ((r.Close p1).Close p2).ch = List.replicate r.sz p2 := by
  constructor
  · simp [close_def]
  · simp [close_def]

/-- Claim C5: while the latch is open — right after `NewLatch` with
capacity `n ≥ 1`, or after `Close(p)` followed by `Open` — a non-blocking
take yields no value. -/
theorem latch_open_take_none (α : Type) [Inhabited α] (n : Nat) (hn : 1 ≤ n)
    (r : Latch α) (p : α) :
    ((NewLatch α n).tryTake).1 = none ∧ (((r.Close p).Open).tryTake).1 = none := by
  constructor
  · rfl
  · rw [open_def]
    rfl

theorem latch_open_take_none_witness :
    ((NewLatch Nat 1).tryTake).1 = none ∧
    ((((NewLatch Nat 1).Close 5).Open).tryTake).1 = none :=
  latch_open_take_none Nat 1 (by decide) (NewLatch Nat 1) 5

/-- Claim C6: after `Close(p)` on a latch of capacity `sz ≥ 1`, draining
all `sz` slots yields `p` each time, `Refresh` then restores the state to
exactly the post-`Close` state (so the drain-then-refresh round is
repeatable indefinitely), and a take after the `Refresh` yields `p`. -/
theorem latch_refresh_restores (r : Latch α) (p : α) (h : 1 ≤ r.sz) :
    ((r.Close p).takeSeq r.sz).1 = List.replicate r.sz (some p) ∧
    refreshRound r.sz (r.Close p) = r.Close p ∧
    (∀ k : Nat, (refreshRound r.sz)^[k] (r.Close p) = r.Close p) ∧
    ((refreshRound r.sz (r.Close p)).tryTake).1 = some p := by
  have hch : (r.Close p).ch = List.replicate r.sz p ++ [] := by
    rw [close_def]
    simp
  have ht := takeSeq_append (List.replicate r.sz p) [] (r.Close p) hch
  rw [List.length_replicate] at ht
  have h1 : ((r.Close p).takeSeq r.sz).1 = List.replicate r.sz (some p) := by
    rw [ht.1, List.map_replicate]
  have hfix : refreshRound r.sz (r.Close p) = r.Close p := by
    unfold refreshRound
    rw [ht.2, close_def]
    simp [Latch.Refresh, refreshLoop_eq, close_def]
  have hiter : ∀ k : Nat, (refreshRound r.sz)^[k] (r.Close p) = r.Close p := by
    intro k
    induction k with
    | zero => rfl
    | succ k ih => rw [Function.iterate_succ_apply, hfix, ih]
  have hne : (r.Close p).ch = p :: List.replicate (r.sz - 1) p := by
    rw [close_def]
    obtain ⟨m, hm⟩ : ∃ m, r.sz = m + 1 := ⟨r.sz - 1, by omega⟩
    rw [hm]
    simp [List.replicate_succ]
  have htake : ((refreshRound r.sz (r.Close p)).tryTake).1 = some p := by
    rw [hfix]
    unfold Latch.tryTake
    rw [hne]
  exact ⟨h1, hfix, hiter, htake⟩

theorem latch_refresh_restores_witness :
    (((NewLatch Nat 2).Close 9).takeSeq 2).1 = List.replicate 2 (some 9) ∧
    (refreshRound 2)^[5] ((NewLatch Nat 2).Close 9) = (NewLatch Nat 2).Close 9 ∧
    ((refreshRound 2 ((NewLatch Nat 2).Close 9)).tryTake).1 = some 9 :=
  ⟨(latch_refresh_restores (NewLatch Nat 2) 9 (by decide)).1,
   (latch_refresh_restores (NewLatch Nat 2) 9 (by decide)).2.2.1 5,
   (latch_refresh_restores (NewLatch Nat 2) 9 (by decide)).2.2.2⟩

/-- Claim C7: `Refresh` on an open latch is a silent no-op — the whole
latch state (closed flag, current value, queue, stop channel) is unchanged
and no error is possible. -/
theorem latch_refresh_open_noop (r : Latch α) (h : r.closed = false) : r.Refresh = r := by
  unfold Latch.Refresh
  rw [h]
  simp

theorem latch_refresh_open_noop_witness :
    (NewLatch Nat 2).closed = false ∧ (NewLatch Nat 2).Refresh = NewLatch Nat 2 :=
  ⟨rfl, latch_refresh_open_noop (NewLatch Nat 2) rfl⟩

/-- Claim C8: the loops inside `drain`, `Close` and `Refresh` all terminate
and never block or fail: the drain loop empties the channel within
`length` iterations, `Close`'s fill of `sz` sends into the just-drained
channel finds room for every send, and `Refresh`'s top-up loop finishes
within `sz - length` iterations, each outcome a `some` (never an error). -/
theorem latch_ops_total (r : Latch α) (p : α) :
    drainFuel r.ch.length r.ch = some [] ∧
    closeFillChecked p r.sz r.sz ([] : List α) = some ((r.Close p).ch) ∧
    refreshFuel r.cur r.sz (r.sz - r.ch.length) r.ch = some (refreshLoop r.cur r.sz r.ch) := by
  refine ⟨drainFuel_len r.ch, ?_,
    refreshFuel_eq r.cur r.sz (r.sz - r.ch.length) r.ch rfl⟩
  rw [close_def]
  have hc := closeFillChecked_eq r.sz ([] : List α) p r.sz (by simp)
  rw [hc, closeFill_eq]
  simp

/-- Claim C9: `Stop` is idempotent and safe — on a latch whose refresher
was never started it is a no-op that does not run `close`, and a second
`Stop` after any first `Stop` is likewise a no-op whose
close-of-already-closed branch is unreachable (boolean `false`). -/
theorem latch_stop_idempotent (r : Latch α) :
    (r.fillerStop = StopCh.nilCh → r.Stop = (r, false)) ∧
    ((r.Stop).1.Stop) = ((r.Stop).1, false) := by
  constructor
  · intro h
    unfold Latch.Stop
    rw [h]
  · cases hf : r.fillerStop with
    | nilCh =>
      have hs : r.Stop = (r, false) := by
        unfold Latch.Stop
        rw [hf]
      rw [hs]
      simpa using hs
    | openedCh =>
      have hs : r.Stop = ({ r with fillerStop := StopCh.closedCh }, true) := by
        unfold Latch.Stop
        rw [hf]
      rw [hs]
      rfl
    | closedCh =>
      have hs : r.Stop = (r, false) := by
        unfold Latch.Stop
        rw [hf]
      rw [hs]
      simpa using hs

theorem latch_stop_idempotent_witness :
    (NewLatch Nat 1).Stop = (NewLatch Nat 1, false) ∧
    (((NewLatch Nat 1).Stop).1.Stop) = (((NewLatch Nat 1).Stop).1, false) :=
  ⟨(latch_stop_idempotent (NewLatch Nat 1)).1 rfl, (latch_stop_idempotent (NewLatch Nat 1)).2⟩

/-- Claim C10: after `Close(p)`, every successful take — across any mix of
further takes and `Refresh` calls — returns the identical pointer `p` that
was passed to `Close`: the queued copies all alias the one packet. -/
theorem latch_take_aliases_packet (r : Latch α) (p : α) (ops : List ReadOp) :
    ∀ o ∈ (((r.Close p).runReads ops)).2, ∀ x, o = some x → x = p := by
  have ha : AliasInv p (r.Close p) := by
    rw [close_def]
    exact ⟨rfl, fun y hy => List.eq_of_mem_replicate hy⟩
  exact (alias_runReads p ops (r.Close p) ha).2

theorem latch_take_aliases_packet_witness :
    some 7 ∈ (((NewLatch Nat 3).Close 7).runReads [ReadOp.take]).2 ∧ (7 : Nat) = 7 :=
  ⟨by decide,
   latch_take_aliases_packet (NewLatch Nat 3) 7 [ReadOp.take] (some 7) (by decide) 7 rfl⟩

end LatchSpec
